import Mathlib

/-!
Shallow embedding of `puzzle.py` from the TilesPuzzle-Solver repository.

The grid is modelled as a `List (List Int)` in row-major order (outer index
is the row `y`, inner index is the column `x`), matching the numpy array
`Puzzle.__grid` whose cells are accessed as `grid[y, x]`.  Coordinates and
cell values are `Int`; Python's `%` on integers with a positive modulus
agrees with Lean's `Int.emod`.  Fallible Python code (raising `ValueError` /
`Exception` / `NameError`) is modelled with `Except String` / `Option`.
-/

set_option maxHeartbeats 1000000

namespace TilesPuzzle

/-- `PuzzleMove = Tuple[int, PuzzleTilePos, IntDirection2D]`:
(cost, tile to move, direction). -/
abbrev PuzzleMove := Int × (Int × Int) × (Int × Int)

/-- Cell read `Puzzle.__getitem__`: `self.__grid[pos[1], pos[0]]`.
Every access in this development happens at a modulus-reduced, in-range
coordinate, so the out-of-range defaults are never observed. -/
def getCell (grid : List (List Int)) (pos : Int × Int) : Int :=
  (grid.getD pos.2.toNat []).getD pos.1.toNat 0

/-- Cell write `Puzzle.__setitem__`: `self.__grid[key[1], key[0]] = value`. -/
def setCell (grid : List (List Int)) (pos : Int × Int) (v : Int) : List (List Int) :=
  grid.set pos.2.toNat ((grid.getD pos.2.toNat []).set pos.1.toNat v)

/-- The `swap` helper inside `Puzzle.compute_move`:
`a[p1], a[p2] = a[p2], a[p1]` — the right-hand tuple is evaluated first,
then both cells are overwritten. -/
def swapCells (g : List (List Int)) (p1 p2 : Int × Int) : List (List Int) :=
  let v1 := getCell g p1
  let v2 := getCell g p2
  setCell (setCell g p1 v2) p2 v1

/-- `state.shape[0]` of the numpy grid: the number of rows. -/
def shape0 (g : List (List Int)) : Int := g.length

/-- `state.shape[1]` of the numpy grid: the number of columns (a rectangular
ndarray has every row of the same length, so the first row's length is it). -/
def shape1 (g : List (List Int)) : Int := (g.headD []).length

/-- The state of `Puzzle`: grid contents (`__grid`), dimensions
`(width, height)` (`__dimensions`) and the cached empty-cell coordinate
`(x, y)` (`__tile_pos`). -/
structure Puzzle where
  grid : List (List Int)
  dims : Int × Int
  tile_pos : Int × Int
deriving DecidableEq

/-- `Puzzle.__init__`.  For a pair, `len(dimension) < 2` is always false, so
the failure condition is `dimension[0] < 2 or dimension[1] < 2`. -/
def Puzzle.init (grid : List (List Int)) (dimension : Int × Int)
    (empty_tile_position : Int × Int) : Except String Puzzle :=
  if dimension.1 < 2 ∨ dimension.2 < 2 then
    .error "Invalid puzzle dimensions. Width & Height needs greater or equal than 2."
  else
    .ok ⟨grid, dimension, empty_tile_position⟩

/-- Inner loop of `Puzzle.locate_tile`: scan one row left to right, carrying
the running `x` counter; return the first matching column index. -/
def locateRow (row : List Int) (tile : Int) (x : Int) : Option Int :=
  match row with
  | [] => none
  | t :: ts => if t = tile then some x else locateRow ts tile (x + 1)

/-- Outer loop of `Puzzle.locate_tile`: scan the rows top to bottom, carrying
the running `y` counter; `x` restarts at 0 on each row. -/
def locateRows (rows : List (List Int)) (tile : Int) (y : Int) :
    Option (Int × Int) :=
  match rows with
  | [] => none
  | r :: rs =>
    match locateRow r tile 0 with
    | some x => some (x, y)
    | none => locateRows rs tile (y + 1)

/-- `Puzzle.locate_tile`: row-major scan (y outer, x inner) returning the
first coordinate holding `tile`; `none` models the raised `Exception` when
no cell matches. -/
def locate_tile (state : List (List Int)) (tile : Int) : Option (Int × Int) :=
  locateRows state tile 0

/-- `Puzzle.from_state`: locate the empty marker 0 when no position is
supplied, then construct with dimensions `(state.shape[1], state.shape[0])`. -/
def Puzzle.from_state (state : List (List Int)) (tile_pos : Option (Int × Int)) :
    Except String Puzzle :=
  match tile_pos with
  | none =>
    match locate_tile state 0 with
    | none => .error "No tile marked as 0 found in the puzzle definition."
    | some pos => Puzzle.init state (shape1 state, shape0 state) pos
  | some pos => Puzzle.init state (shape1 state, shape0 state) pos

/-- `np.reshape(l, (rows, cols))` for a flat list whose length is
`rows * cols` (the only way the source uses it): row `r` holds the
elements at flat indices `r * cols + c`. -/
def reshape (l : List Int) (rows cols : Nat) : List (List Int) :=
  (List.range rows).map (fun r => (List.range cols).map (fun c => l.getD (r * cols + c) 0))

/-- `Puzzle.from_int_list`: reshape to `(dimension[1], dimension[0])` —
height-major, width-minor — and delegate to `from_state`. -/
def Puzzle.from_int_list (int_list : List Int) (dimension : Int × Int) :
    Except String Puzzle :=
  Puzzle.from_state (reshape int_list dimension.2.toNat dimension.1.toNat) none

/-- The `cost` closure inside `Puzzle.get_moves`, capturing the state's
dimensions `(w, h)` and empty-cell position `(x, y)`. -/
def lateral_cost (p : Puzzle) (tile : Int × Int) : Int :=
  let w := p.dims.1
  let h := p.dims.2
  let x := p.tile_pos.1
  let y := p.tile_pos.2
  if w > 2 ∧ ((tile.1 = 0 ∧ x = w - 1) ∨ (tile.1 = w - 1 ∧ x = 0)) then 2
  else if h > 2 ∧ ((tile.2 = 0 ∧ y = h - 1) ∨ (tile.2 = h - 1 ∧ y = 0)) then 2
  else 1

/-- The `laterals` list of `Puzzle.get_moves`: top, bottom, right, left in
that order, where the top/bottom pair collapses to the single top-labelled
entry when the two neighbor coordinates coincide, and symmetrically the
right/left pair collapses to the right-labelled entry. -/
def lateral_candidates (p : Puzzle) : List ((Int × Int) × (Int × Int)) :=
  let w := p.dims.1
  let h := p.dims.2
  let x := p.tile_pos.1
  let y := p.tile_pos.2
  let top : Int × Int := (x, (y - 1) % h)
  let right : Int × Int := ((x + 1) % w, y)
  let bottom : Int × Int := (x, (y + 1) % h)
  let left : Int × Int := ((x - 1) % w, y)
  (if top = bottom then [(top, ((0 : Int), (-1 : Int)))]
   else [(top, ((0 : Int), (-1 : Int))), (bottom, ((0 : Int), (1 : Int)))]) ++
  (if right = left then [(right, ((-1 : Int), (0 : Int)))]
   else [(right, ((-1 : Int), (0 : Int))), (left, ((1 : Int), (0 : Int)))])

/-- The `diagonals` list of `Puzzle.get_moves`.  In the source both corner
tests are separate `if` statements and the second assignment overwrites the
first, so the top-right/bottom-left test takes precedence (the two tests
can only overlap when a dimension is 1). -/
def diagonal_candidates (p : Puzzle) : List ((Int × Int) × (Int × Int)) :=
  let w := p.dims.1
  let h := p.dims.2
  let x := p.tile_pos.1
  let y := p.tile_pos.2
  if (h, w) ≠ ((2 : Int), (2 : Int)) then
    if (x, y) = ((w - 1 : Int), (0 : Int)) ∨ (x, y) = ((0 : Int), (h - 1 : Int)) then
      [(((x - 1) % w, (y + 1) % h), ((1 : Int), (-1 : Int))),
       (((x + 1) % w, (y - 1) % h), ((-1 : Int), (1 : Int)))]
    else if (x, y) = ((0 : Int), (0 : Int)) ∨ (x, y) = ((w - 1 : Int), (h - 1 : Int)) then
      [(((x - 1) % w, (y - 1) % h), ((1 : Int), (1 : Int))),
       (((x + 1) % w, (y + 1) % h), ((-1 : Int), (-1 : Int)))]
    else []
  else []

/-- `Puzzle.get_moves`: the lateral candidates tagged with their computed
cost, followed by the diagonal candidates tagged with the fixed cost 3. -/
def get_moves (p : Puzzle) : List PuzzleMove :=
  (lateral_candidates p).map (fun t => (lateral_cost p t.1, t.1, t.2)) ++
  (diagonal_candidates p).map (fun t => ((3 : Int), t.1, t.2))

/-- The move list in the order the amended claim states it: lateral moves
first — top, bottom, right, left, with the top/bottom pair collapsed to the
top-labelled entry when the height is 2 and the right/left pair collapsed
to the right-labelled entry when the width is 2 — followed by the two
diagonal moves when applicable.  The degeneracy here is phrased by the
axis-size test of the spec, not the source's neighbor-coincidence test. -/
def claimed_order_moves (p : Puzzle) : List PuzzleMove :=
  let w := p.dims.1
  let h := p.dims.2
  let x := p.tile_pos.1
  let y := p.tile_pos.2
  let verticals : List ((Int × Int) × (Int × Int)) :=
    if h = 2 then [((x, (y - 1) % h), ((0 : Int), (-1 : Int)))]
    else [((x, (y - 1) % h), ((0 : Int), (-1 : Int))),
          ((x, (y + 1) % h), ((0 : Int), (1 : Int)))]
  let horizontals : List ((Int × Int) × (Int × Int)) :=
    if w = 2 then [(((x + 1) % w, y), ((-1 : Int), (0 : Int)))]
    else [(((x + 1) % w, y), ((-1 : Int), (0 : Int))),
          (((x - 1) % w, y), ((1 : Int), (0 : Int)))]
  ((verticals ++ horizontals).map (fun t => (lateral_cost p t.1, t.1, t.2))) ++
  (diagonal_candidates p).map (fun t => ((3 : Int), t.1, t.2))

/-- `Puzzle.compute_move`: the new empty position is
`((tile.x + dir.x) % w, (tile.y + dir.y) % h)` with `self`'s dimensions;
the grid of `from_state` is deep-copied, the two cells are swapped, and the
result is rebuilt by `Puzzle.from_state` with cached position `tile_pos`. -/
def compute_move (self from_state : Puzzle) (move_to_apply : PuzzleMove) :
    Except String Puzzle :=
  let w := self.dims.1
  let h := self.dims.2
  let tile_pos := move_to_apply.2.1
  let direction := move_to_apply.2.2
  let new_empty_tile_pos : Int × Int :=
    ((tile_pos.1 + direction.1) % w, (tile_pos.2 + direction.2) % h)
  let computed := swapCells from_state.grid tile_pos new_empty_tile_pos
  Puzzle.from_state computed (some tile_pos)

/-- `Puzzle.__eq__`: `np.array_equal(self.__grid, o.__grid)` — true exactly
when shapes and contents agree, which for the list model is list equality.
(The `self is o` fast path is subsumed: identical objects have equal grids.) -/
def Puzzle.eq (a b : Puzzle) : Bool :=
  a.grid = b.grid

/-- The key hashed by `Puzzle.__hash__`: `hash(str(self.__grid))`.  The numpy
string rendering is a function of the grid contents alone (bracketed rows of
space-separated values), so we model the hash by that rendering; equal
renderings hash equally in Python. -/
def Puzzle.hash_key (p : Puzzle) : String :=
  "[" ++ String.intercalate " " (p.grid.map
    (fun row => "[" ++ String.intercalate " " (row.map toString) ++ "]")) ++ "]"

/-- `Puzzle.__ne__`: the body is `return not __eq__(o)`, and `__eq__` is a
free name — it is not bound in the local, enclosing, module or builtin
scope — so evaluating `p != q` raises `NameError` before any comparison
happens.  The error is the unconditional result. -/
def Puzzle.ne (_self _o : Puzzle) : Except String Bool :=
  .error "NameError: name __eq__ is not defined"

/-- Transpose (`.T`) of a rectangular numpy array: row `i` of the result is
column `i` of the argument. -/
def transposeMat (g : List (List Int)) : List (List Int) :=
  (List.range (g.headD []).length).map (fun i => g.map (fun row => row.getD i 0))

/-- `find_goals`: `lin = arange(w*h)` rotated so the 0 tile is last, reshaped
to `(h, w)` for the first goal and to `(w, h)` then transposed for the
second; both are rebuilt through `Puzzle.from_state`. -/
def find_goals (puzzle : Puzzle) : Except String (Puzzle × Puzzle) :=
  let dim := puzzle.dims
  let count := dim.1 * dim.2
  let lin : List Int := (List.range count.toNat).map Int.ofNat
  let lin2 := lin.drop 1 ++ lin.take 1
  let goal1 := reshape lin2 dim.2.toNat dim.1.toNat
  let goal2 := transposeMat (reshape lin2 dim.1.toNat dim.2.toNat)
  match Puzzle.from_state goal1 none, Puzzle.from_state goal2 none with
  | .ok g1, .ok g2 => .ok (g1, g2)
  | .error e, _ => .error e
  | _, .error e => .error e

/-- The diagonal moves of a move list: those whose direction has both
components nonzero (every lateral label has a zero component, every
diagonal label has none). -/
def diagonal_entries (ms : List PuzzleMove) : List PuzzleMove :=
  ms.filter (fun m => m.2.2.1 != 0 && m.2.2.2 != 0)

/-- The vertical lateral moves of a move list: direction `(0, ±1)`. -/
def vertical_entries (ms : List PuzzleMove) : List PuzzleMove :=
  ms.filter (fun m => m.2.2.1 == 0 && m.2.2.2 != 0)

/-- The horizontal lateral moves of a move list: direction `(±1, 0)`. -/
def horizontal_entries (ms : List PuzzleMove) : List PuzzleMove :=
  ms.filter (fun m => m.2.2.1 != 0 && m.2.2.2 == 0)

/-! ## Concrete states used as test inputs -/

/-- 3×3 state with the empty marker at the corner (0,0). -/
def p33_corner : Puzzle := ⟨[[0, 1, 2], [3, 4, 5], [6, 7, 8]], (3, 3), (0, 0)⟩

/-- 3×3 state with the empty marker at the center (1,1). -/
def p33_center : Puzzle := ⟨[[1, 2, 3], [4, 0, 5], [6, 7, 8]], (3, 3), (1, 1)⟩

/-- 4×4 state with the empty marker at the corner (0,0). -/
def p44_corner : Puzzle :=
  ⟨[[0, 1, 2, 3], [4, 5, 6, 7], [8, 9, 10, 11], [12, 13, 14, 15]], (4, 4), (0, 0)⟩

/-- Width-2, height-3 state with the empty marker at (0,0). -/
def p23_corner : Puzzle := ⟨[[0, 1], [2, 3], [4, 5]], (2, 3), (0, 0)⟩

/-- 2×2 state with the empty marker at (0,0). -/
def p22_corner : Puzzle := ⟨[[0, 1], [2, 3]], (2, 2), (0, 0)⟩

/-! ## Basic list and grid lemmas -/

/-- `getD` after `set` at the same (in-bounds) index reads the new value. -/
theorem getD_set_self {α : Type} (l : List α) (i : Nat) (v d : α) (h : i < l.length) :
    (l.set i v).getD i d = v := by
  rw [List.getD_eq_getElem _ _ (by simpa using h)]
  simp [List.getElem_set]

/-- `getD` after `set` at a different index is unchanged. -/
theorem getD_set_ne {α : Type} (l : List α) (i j : Nat) (v d : α) (hne : i ≠ j) :
    (l.set i v).getD j d = l.getD j d := by
  rcases lt_or_ge j l.length with hj | hj
  · rw [List.getD_eq_getElem _ _ (by simpa using hj), List.getD_eq_getElem _ _ hj]
    simp [List.getElem_set, hne]
  · rw [List.getD_eq_default _ _ (by simpa using hj), List.getD_eq_default _ _ hj]

/-- Writing back the value already present leaves the list unchanged. -/
theorem set_getD_cancel {α : Type} (l : List α) (i : Nat) (d : α) (h : i < l.length) :
    l.set i (l.getD i d) = l := by
  rw [List.getD_eq_getElem _ _ h]
  apply List.ext_getElem (by simp)
  intro j h1 h2
  simp only [List.getElem_set]
  split
  · rename_i hji
    subst hji
    rfl
  · rfl

/-- A cell write whose row index is out of bounds is the identity
(`List.set` out of range changes nothing). -/
theorem setCell_row_oob (g : List (List Int)) (p : Int × Int) (v : Int)
    (hge : g.length ≤ p.2.toNat) : setCell g p v = g := by
  unfold setCell
  exact List.set_eq_of_length_le hge

/-- Lists of equal length with equal `getD` views are equal. -/
theorem list_ext_getD {α : Type} (d : α) (l1 l2 : List α) (h : l1.length = l2.length)
    (hg : ∀ i, i < l1.length → l1.getD i d = l2.getD i d) : l1 = l2 := by
  apply List.ext_getElem h
  intro i h1 h2
  have hi := hg i h1
  rwa [List.getD_eq_getElem _ _ h1, List.getD_eq_getElem _ _ h2] at hi

/-- The grid is a rectangular array of `h` rows of length `w` each
(`w`, `h` are the puzzle's width and height as integers). -/
def Rect (g : List (List Int)) (w h : Int) : Prop :=
  g.length = h.toNat ∧ ∀ row ∈ g, row.length = w.toNat

instance (g : List (List Int)) (w h : Int) : Decidable (Rect g w h) := by
  unfold Rect
  infer_instance

/-- The coordinate is inside the `w × h` grid. -/
def InRange (w h : Int) (p : Int × Int) : Prop :=
  0 ≤ p.1 ∧ p.1 < w ∧ 0 ≤ p.2 ∧ p.2 < h

instance (w h : Int) (p : Int × Int) : Decidable (InRange w h p) := by
  unfold InRange
  infer_instance

theorem rect_row_length (g : List (List Int)) (w h : Int) (hr : Rect g w h)
    (j : Nat) (hj : j < g.length) : (g.getD j []).length = w.toNat := by
  rw [List.getD_eq_getElem _ _ hj]
  exact hr.2 _ (List.getElem_mem hj)

theorem rect_setCell (g : List (List Int)) (w h : Int) (p : Int × Int) (v : Int)
    (hr : Rect g w h) : Rect (setCell g p v) w h := by
  unfold setCell
  rcases lt_or_ge p.2.toNat g.length with hj | hj
  · refine ⟨by simpa using hr.1, ?_⟩
    intro row hrow
    rcases List.mem_or_eq_of_mem_set hrow with hmem | heq
    · exact hr.2 _ hmem
    · rw [heq, List.length_set]
      exact rect_row_length g w h hr _ hj
  · rw [List.set_eq_of_length_le hj]
    exact hr

theorem swapCells_rect (g : List (List Int)) (w h : Int) (p q : Int × Int)
    (hr : Rect g w h) : Rect (swapCells g p q) w h :=
  rect_setCell _ w h _ _ (rect_setCell _ w h _ _ hr)

theorem getCell_setCell_self (g : List (List Int)) (w h : Int) (p : Int × Int)
    (v : Int) (hr : Rect g w h) (hp : InRange w h p) :
    getCell (setCell g p v) p = v := by
  obtain ⟨hx0, hxw, hy0, hyh⟩ := hp
  have hylt : p.2.toNat < g.length := by
    rw [hr.1]
    omega
  have hxlt : p.1.toNat < (g.getD p.2.toNat []).length := by
    rw [rect_row_length g w h hr _ hylt]
    omega
  unfold getCell setCell
  rw [getD_set_self _ _ _ _ (by simpa using hylt)]
  rw [getD_set_self _ _ _ _ hxlt]

theorem getCell_setCell_ne (g : List (List Int)) (p q : Int × Int)
    (v : Int) (hne : p.1.toNat ≠ q.1.toNat ∨ p.2.toNat ≠ q.2.toNat) :
    getCell (setCell g p v) q = getCell g q := by
  rcases lt_or_ge p.2.toNat g.length with hylt | hyge
  · unfold getCell setCell
    rcases hne with hne | hne
    · rcases eq_or_ne p.2.toNat q.2.toNat with hy | hy
      · rw [← hy, getD_set_self _ _ _ _ (by simpa using hylt),
          getD_set_ne _ _ _ _ _ hne]
      · rw [getD_set_ne _ _ _ _ _ hy]
    · rw [getD_set_ne _ _ _ _ _ hne]
  · rw [setCell_row_oob _ _ _ hyge]

/-- Rectangular grids agreeing on every in-range cell are equal
(for nonnegative dimensions). -/
theorem grid_ext (g1 g2 : List (List Int)) (w h : Int) (hw : 0 ≤ w) (_hh : 0 ≤ h)
    (h1 : Rect g1 w h) (h2 : Rect g2 w h)
    (hc : ∀ p : Int × Int, InRange w h p → getCell g1 p = getCell g2 p) :
    g1 = g2 := by
  apply list_ext_getD [] _ _ (h1.1.trans h2.1.symm)
  intro j hj
  have hj2 : j < g2.length := by
    rw [h2.1, ← h1.1]
    exact hj
  apply list_ext_getD 0 _ _
    ((rect_row_length g1 w h h1 j hj).trans (rect_row_length g2 w h h2 j hj2).symm)
  intro i hi
  rw [rect_row_length g1 w h h1 j hj] at hi
  have hiw : (i : Int) < w := by omega
  have hjh : (j : Int) < h := by
    have := h1.1
    omega
  have hcell := hc ((i : Int), (j : Int))
    ⟨Int.natCast_nonneg i, hiw, Int.natCast_nonneg j, hjh⟩
  unfold getCell at hcell
  simpa using hcell

/-- Two distinct in-range coordinates differ on a `toNat` component. -/
theorem pos_toNat_ne (w h : Int) (p q : Int × Int) (hp : InRange w h p)
    (hq : InRange w h q) (hne : p ≠ q) :
    p.1.toNat ≠ q.1.toNat ∨ p.2.toNat ≠ q.2.toNat := by
  obtain ⟨hp1, _, hp2, _⟩ := hp
  obtain ⟨hq1, _, hq2, _⟩ := hq
  by_contra hcon
  push_neg at hcon
  apply hne
  have h1 : p.1 = q.1 := by omega
  have h2 : p.2 = q.2 := by omega
  exact Prod.ext h1 h2

/-- Cell view of `swapCells`: the cell at `b` now holds what was at `a`,
the cell at `a` holds what was at `b`, and all other cells are unchanged. -/
theorem getCell_swapCells (g : List (List Int)) (w h : Int) (a b q : Int × Int)
    (hr : Rect g w h) (ha : InRange w h a) (hb : InRange w h b)
    (hq : InRange w h q) :
    getCell (swapCells g a b) q =
      if q = b then getCell g a else if q = a then getCell g b else getCell g q := by
  unfold swapCells
  simp only
  rcases eq_or_ne q b with rfl | hqb
  · rw [if_pos rfl]
    exact getCell_setCell_self _ w h _ _ (rect_setCell _ w h _ _ hr) hq
  · rw [if_neg hqb, getCell_setCell_ne _ _ _ _ (pos_toNat_ne w h b q hb hq (Ne.symm hqb))]
    rcases eq_or_ne q a with rfl | hqa
    · rw [if_pos rfl]
      exact getCell_setCell_self _ w h _ _ hr hq
    · rw [if_neg hqa,
        getCell_setCell_ne _ _ _ _ (pos_toNat_ne w h a q ha hq (Ne.symm hqa))]

/-- Swapping the same pair of in-range cells twice restores the grid. -/
theorem swapCells_swapCells (g : List (List Int)) (w h : Int) (a b : Int × Int)
    (hw : 0 ≤ w) (hh : 0 ≤ h) (hr : Rect g w h)
    (ha : InRange w h a) (hb : InRange w h b) :
    swapCells (swapCells g a b) a b = g := by
  have hr1 : Rect (swapCells g a b) w h := swapCells_rect g w h a b hr
  have hr2 : Rect (swapCells (swapCells g a b) a b) w h :=
    swapCells_rect _ w h a b hr1
  apply grid_ext _ _ w h hw hh hr2 hr
  intro q hq
  rw [getCell_swapCells _ w h a b q hr1 ha hb hq]
  rw [getCell_swapCells _ w h a b a hr ha hb ha]
  rw [getCell_swapCells _ w h a b b hr ha hb hb]
  rw [getCell_swapCells _ w h a b q hr ha hb hq]
  split_ifs <;> simp_all

/-- On a rectangular grid of valid dimensions, `compute_move` always
succeeds and produces exactly the swapped grid with the move's tile
coordinate as the cached empty-cell position. -/
theorem compute_move_eq_ok (self fs : Puzzle) (m : PuzzleMove) (w h : Int)
    (hd : self.dims = (w, h)) (hw : 2 ≤ w) (hh : 2 ≤ h)
    (hr : Rect fs.grid w h) :
    compute_move self fs m = Except.ok
      ⟨swapCells fs.grid m.2.1 ((m.2.1.1 + m.2.2.1) % w, (m.2.1.2 + m.2.2.2) % h),
       (w, h), m.2.1⟩ := by
  have hrs : Rect (swapCells fs.grid m.2.1
      ((m.2.1.1 + m.2.2.1) % w, (m.2.1.2 + m.2.2.2) % h)) w h :=
    swapCells_rect _ w h _ _ hr
  have hlen : (swapCells fs.grid m.2.1
      ((m.2.1.1 + m.2.2.1) % w, (m.2.1.2 + m.2.2.2) % h)).length = h.toNat := hrs.1
  have hne : swapCells fs.grid m.2.1
      ((m.2.1.1 + m.2.2.1) % w, (m.2.1.2 + m.2.2.2) % h) ≠ [] := by
    intro hcon
    rw [hcon] at hlen
    simp at hlen
    omega
  have hhead : (swapCells fs.grid m.2.1
      ((m.2.1.1 + m.2.2.1) % w, (m.2.1.2 + m.2.2.2) % h)).headD [] ∈
      swapCells fs.grid m.2.1 ((m.2.1.1 + m.2.2.1) % w, (m.2.1.2 + m.2.2.2) % h) := by
    cases hg : swapCells fs.grid m.2.1
        ((m.2.1.1 + m.2.2.1) % w, (m.2.1.2 + m.2.2.2) % h) with
    | nil => exact absurd hg hne
    | cons r rs => simp
  have hs1 : shape1 (swapCells fs.grid m.2.1
      ((m.2.1.1 + m.2.2.1) % w, (m.2.1.2 + m.2.2.2) % h)) = w := by
    unfold shape1
    rw [hrs.2 _ hhead]
    omega
  have hs0 : shape0 (swapCells fs.grid m.2.1
      ((m.2.1.1 + m.2.2.1) % w, (m.2.1.2 + m.2.2.2) % h)) = h := by
    unfold shape0
    rw [hlen]
    omega
  have hcond : ¬((w, h).1 < 2 ∨ (w, h).2 < 2) := by
    show ¬(w < 2 ∨ h < 2)
    omega
  unfold compute_move
  rw [hd]
  simp only [Puzzle.from_state, Puzzle.init, hs1, hs0]
  rw [if_neg hcond]

/-! ## Arithmetic facts about the wrap-around neighbors -/

/-- The two wrapped neighbors `(a - 1) % n` and `(a + 1) % n` coincide
exactly when the axis has size 2. -/
theorem emod_sub_one_eq_add_one_iff (a n : Int) (hn : 2 ≤ n) :
    (a - 1) % n = (a + 1) % n ↔ n = 2 := by
  rw [Int.emod_eq_emod_iff_emod_sub_eq_zero]
  have hdiff : a - 1 - (a + 1) = -2 := by ring
  rw [hdiff]
  constructor
  · intro hz
    have hdvd : n ∣ -2 := Int.dvd_of_emod_eq_zero hz
    have hdvd2 : n ∣ 2 := (Int.dvd_neg).mp hdvd
    have := Int.le_of_dvd (by norm_num) hdvd2
    omega
  · intro hn2
    subst hn2
    decide

/-- The lateral portion of the move list, with the source's two neighbor
coincidence tests rewritten as the equivalent axis-size tests. -/
theorem lateral_candidates_eq (p : Puzzle) (w h x y : Int)
    (hd : p.dims = (w, h)) (hp : p.tile_pos = (x, y)) (hw : 2 ≤ w) (hh : 2 ≤ h) :
    lateral_candidates p =
      (if h = 2 then [((x, (y - 1) % h), ((0 : Int), (-1 : Int)))]
       else [((x, (y - 1) % h), ((0 : Int), (-1 : Int))),
             ((x, (y + 1) % h), ((0 : Int), (1 : Int)))]) ++
      (if w = 2 then [(((x + 1) % w, y), ((-1 : Int), (0 : Int)))]
       else [(((x + 1) % w, y), ((-1 : Int), (0 : Int))),
             (((x - 1) % w, y), ((1 : Int), (0 : Int)))]) := by
  have hvert : ((x, (y - 1) % h) = ((x, (y + 1) % h) : Int × Int)) ↔ h = 2 := by
    rw [Prod.mk.injEq]
    simp only [true_and]
    exact emod_sub_one_eq_add_one_iff y h hh
  have hhoriz : ((((x + 1) % w, y) : Int × Int) = ((x - 1) % w, y)) ↔ w = 2 := by
    rw [Prod.mk.injEq]
    simp only [and_true]
    rw [eq_comm]
    exact emod_sub_one_eq_add_one_iff x w hw
  unfold lateral_candidates
  rw [hd, hp]
  simp only
  rw [if_congr hvert rfl rfl, if_congr hhoriz rfl rfl]

/-- The `cost` closure returns 2 under exactly the wrap condition of the
spec and 1 otherwise. -/
theorem lateral_cost_spec (p : Puzzle) (w h x y : Int) (t : Int × Int)
    (hd : p.dims = (w, h)) (hp : p.tile_pos = (x, y)) :
    ((w > 2 ∧ ((t.1 = 0 ∧ x = w - 1) ∨ (t.1 = w - 1 ∧ x = 0)) ∨
      h > 2 ∧ ((t.2 = 0 ∧ y = h - 1) ∨ (t.2 = h - 1 ∧ y = 0))) →
        lateral_cost p t = 2) ∧
    (¬(w > 2 ∧ ((t.1 = 0 ∧ x = w - 1) ∨ (t.1 = w - 1 ∧ x = 0)) ∨
       h > 2 ∧ ((t.2 = 0 ∧ y = h - 1) ∨ (t.2 = h - 1 ∧ y = 0))) →
        lateral_cost p t = 1) := by
  unfold lateral_cost
  rw [hd, hp]
  simp only
  constructor <;> intro hc <;> split_ifs with h1 h2 <;> first | rfl | tauto

/-- Every entry of the `diagonals` list carries a direction with both
components nonzero. -/
theorem diagonal_candidates_dirs (p : Puzzle) (a : (Int × Int) × (Int × Int))
    (ha : a ∈ diagonal_candidates p) : a.2.1 ≠ 0 ∧ a.2.2 ≠ 0 := by
  unfold diagonal_candidates at ha
  dsimp only at ha
  split_ifs at ha <;>
    simp only [List.mem_cons, List.not_mem_nil, or_false] at ha
  all_goals rcases ha with rfl | rfl <;> exact ⟨by simp, by simp⟩

/-- Every entry of the `laterals` list carries one of the four cardinal
directions. -/
theorem lateral_candidates_dirs (p : Puzzle) (a : (Int × Int) × (Int × Int))
    (ha : a ∈ lateral_candidates p) :
    a.2 = ((0 : Int), (-1 : Int)) ∨ a.2 = ((0 : Int), (1 : Int)) ∨
    a.2 = ((-1 : Int), (0 : Int)) ∨ a.2 = ((1 : Int), (0 : Int)) := by
  unfold lateral_candidates at ha
  dsimp only at ha
  simp only [List.mem_append] at ha
  rcases ha with ha | ha <;> split_ifs at ha <;>
    simp only [List.mem_cons, List.not_mem_nil, or_false] at ha <;>
    rcases ha with rfl | rfl <;> simp

/-- The diagonal moves of `get_moves` are exactly the mapped `diagonals`
list: every lateral label has a zero component and is filtered out, every
diagonal label passes the filter. -/
theorem diagonal_entries_get_moves (p : Puzzle) :
    diagonal_entries (get_moves p) =
      (diagonal_candidates p).map (fun t => ((3 : Int), t.1, t.2)) := by
  unfold diagonal_entries get_moves
  rw [List.filter_append]
  have h1 : ((lateral_candidates p).map
      (fun t => (lateral_cost p t.1, t.1, t.2))).filter
      (fun m => m.2.2.1 != 0 && m.2.2.2 != 0) = [] := by
    rw [List.filter_eq_nil_iff]
    intro m hm
    simp only [List.mem_map] at hm
    obtain ⟨a, ha, rfl⟩ := hm
    rcases lateral_candidates_dirs p a ha with hdir | hdir | hdir | hdir <;>
      simp [hdir]
  have h2 : ((diagonal_candidates p).map
      (fun t => ((3 : Int), t.1, t.2))).filter
      (fun m => m.2.2.1 != 0 && m.2.2.2 != 0) =
      (diagonal_candidates p).map (fun t => ((3 : Int), t.1, t.2)) := by
    rw [List.filter_eq_self]
    intro m hm
    simp only [List.mem_map] at hm
    obtain ⟨a, ha, rfl⟩ := hm
    have hnz := diagonal_candidates_dirs p a ha
    simp [hnz.1, hnz.2]
  rw [h1, h2, List.nil_append]

/-! ## Claim C4 -/

/-- C4: when the grid is not exactly 2×2 and the empty cell is at one of
the four corners, `get_moves` contains exactly two diagonal moves, each of
cost 3; at a non-corner empty-cell position, and on every 2×2 grid, it
contains none. -/
theorem c4_diagonal_moves :
    (∀ (p : Puzzle) (w h x y : Int),
      p.dims = (w, h) → p.tile_pos = (x, y) → 2 ≤ w → 2 ≤ h →
      ¬(w = 2 ∧ h = 2) →
      (((x, y) : Int × Int) = (0, 0) ∨ (x, y) = (w - 1, 0) ∨
       (x, y) = (0, h - 1) ∨ (x, y) = (w - 1, h - 1)) →
      (diagonal_entries (get_moves p)).length = 2 ∧
      ∀ m ∈ diagonal_entries (get_moves p), m.1 = 3) ∧
    (∀ (p : Puzzle) (w h x y : Int),
      p.dims = (w, h) → p.tile_pos = (x, y) →
      ¬(((x, y) : Int × Int) = (0, 0) ∨ (x, y) = (w - 1, 0) ∨
        (x, y) = (0, h - 1) ∨ (x, y) = (w - 1, h - 1)) →
      diagonal_entries (get_moves p) = []) ∧
    (∀ p : Puzzle, p.dims = ((2 : Int), (2 : Int)) →
      diagonal_entries (get_moves p) = []) := by
  refine ⟨?_, ?_, ?_⟩
  · intro p w h x y hd hp hw hh h22 hcorner
    have hcost : ∀ m ∈ diagonal_entries (get_moves p), m.1 = 3 := by
      rw [diagonal_entries_get_moves]
      intro m hm
      simp only [List.mem_map] at hm
      obtain ⟨a, _, rfl⟩ := hm
      rfl
    refine ⟨?_, hcost⟩
    rw [diagonal_entries_get_moves, List.length_map]
    unfold diagonal_candidates
    dsimp only
    rw [hd, hp]
    simp only
    rw [if_pos (by
      simp only [Ne, Prod.mk.injEq]
      tauto)]
    rcases hcorner with hc | hc | hc | hc <;>
      rw [Prod.mk.injEq] at hc <;> obtain ⟨rfl, rfl⟩ := hc
    · rw [if_neg (by
        simp only [Prod.mk.injEq]
        omega)]
      rw [if_pos (by simp)]
      rfl
    · rw [if_pos (by simp)]
      rfl
    · rw [if_pos (by simp)]
      rfl
    · rw [if_neg (by
        simp only [Prod.mk.injEq]
        omega)]
      rw [if_pos (by simp)]
      rfl
  · intro p w h x y hd hp hnc
    rw [diagonal_entries_get_moves]
    unfold diagonal_candidates
    dsimp only
    rw [hd, hp]
    simp only
    split_ifs with h1 h2 h3
    · exact absurd (h2.elim (fun hc => Or.inr (Or.inl hc))
        (fun hc => Or.inr (Or.inr (Or.inl hc)))) hnc
    · exact absurd (h3.elim Or.inl
        (fun hc => Or.inr (Or.inr (Or.inr hc)))) hnc
    · rfl
    · rfl
  · intro p hd
    rw [diagonal_entries_get_moves]
    unfold diagonal_candidates
    dsimp only
    rw [hd]
    simp

/-- Witness for C4 at the 4×4 corner state: two diagonal moves. -/
theorem c4_diagonal_moves_witness :
    ¬((4 : Int) = 2 ∧ (4 : Int) = 2) ∧
    (diagonal_entries (get_moves p44_corner)).length = 2 :=
  ⟨by decide,
   (c4_diagonal_moves.1 p44_corner 4 4 0 0 rfl rfl (by decide) (by decide)
      (by decide) (by decide)).1⟩

/-! ## Claim C3 -/

/-- C3: every lateral move returned by `get_moves` (the entries whose
direction has a zero component; diagonal entries have both components
nonzero) has cost 2 exactly under the wrap condition — width > 2 and one of
tile.x / empty.x is 0 while the other is width−1, or height > 2 and one of
tile.y / empty.y is 0 while the other is height−1 — and cost 1 otherwise;
in particular on the 4×4 grid with the empty cell at (0,0) the left
neighbor candidate (3,0) and the top neighbor candidate (0,3) both get
cost 2. -/
theorem c3_lateral_cost_iff :
    (∀ (p : Puzzle) (w h x y c : Int) (t d : Int × Int),
      p.dims = (w, h) → p.tile_pos = (x, y) →
      ((c, t, d) : PuzzleMove) ∈ get_moves p → (d.1 = 0 ∨ d.2 = 0) →
      ((w > 2 ∧ ((t.1 = 0 ∧ x = w - 1) ∨ (t.1 = w - 1 ∧ x = 0)) ∨
        h > 2 ∧ ((t.2 = 0 ∧ y = h - 1) ∨ (t.2 = h - 1 ∧ y = 0))) → c = 2) ∧
      (¬(w > 2 ∧ ((t.1 = 0 ∧ x = w - 1) ∨ (t.1 = w - 1 ∧ x = 0)) ∨
         h > 2 ∧ ((t.2 = 0 ∧ y = h - 1) ∨ (t.2 = h - 1 ∧ y = 0))) → c = 1)) ∧
    (((2 : Int), ((3 : Int), (0 : Int)), ((1 : Int), (0 : Int))) : PuzzleMove) ∈
      get_moves p44_corner ∧
    (((2 : Int), ((0 : Int), (3 : Int)), ((0 : Int), (-1 : Int))) : PuzzleMove) ∈
      get_moves p44_corner := by
  refine ⟨?_, by decide, by decide⟩
  intro p w h x y c t d hd hp hm hlat
  simp only [get_moves, List.mem_append, List.mem_map] at hm
  rcases hm with ⟨a, ha, heq⟩ | ⟨a, ha, heq⟩
  · obtain ⟨hc, ht, hdir⟩ : lateral_cost p a.1 = c ∧ a.1 = t ∧ a.2 = d := by
      simpa [Prod.ext_iff] using heq
    subst hc ht
    exact lateral_cost_spec p w h x y a.1 hd hp
  · obtain ⟨hc, ht, hdir⟩ : (3 : Int) = c ∧ a.1 = t ∧ a.2 = d := by
      simpa [Prod.ext_iff] using heq
    have hnz := diagonal_candidates_dirs p a ha
    rw [hdir] at hnz
    tauto

/-- Witness for C3 at the 4×4 corner state and its left move
(2, (3,0), (1,0)): the wrap condition holds there and the cost is 2. -/
theorem c3_lateral_cost_iff_witness :
    ((4 : Int) > 2 ∧ (((3 : Int) = 0 ∧ (0 : Int) = 4 - 1) ∨
        ((3 : Int) = 4 - 1 ∧ (0 : Int) = 0)) ∨
     (4 : Int) > 2 ∧ (((0 : Int) = 0 ∧ (0 : Int) = 4 - 1) ∨
        ((0 : Int) = 4 - 1 ∧ (0 : Int) = 0))) ∧
    (2 : Int) = 2 :=
  ⟨by decide,
   (c3_lateral_cost_iff.1 p44_corner 4 4 0 0 2 (3, 0) (1, 0) rfl rfl
      (by decide) (by decide)).1 (by decide)⟩

/-! ## Claim C1 -/

/-- C1: the claim that after `compute_move` the empty marker 0 sits, by
row-major scan, at the move's tile coordinate — and that the new state's
cached empty-cell coordinate (which `compute_move` sets to the tile
coordinate) matches that location — FAILS on the code for vertical moves.
On the 3×3 state with the empty cell at (0,0) the generated top move is
(2, (0,2), (0,-1)); applying it swaps the cells (0,2) and (0,1), leaving
the marker 0 at (0,0) while the result caches (0,2) as the empty position. -/
theorem c1_compute_move_divergence :
    (((2 : Int), ((0 : Int), (2 : Int)), ((0 : Int), (-1 : Int))) : PuzzleMove) ∈
      get_moves p33_corner ∧
    compute_move p33_corner p33_corner
        ((2 : Int), ((0 : Int), (2 : Int)), ((0 : Int), (-1 : Int))) =
      Except.ok ⟨[[0, 1, 2], [6, 4, 5], [3, 7, 8]], (3, 3), (0, 2)⟩ ∧
    locate_tile [[0, 1, 2], [6, 4, 5], [3, 7, 8]] 0 = some (0, 0) ∧
    (((0 : Int), (0 : Int)) : Int × Int) ≠ (0, 2) :=
  ⟨by decide, rfl, by decide, by decide⟩

/-! ## Claim C2: counterexample to the stated inverse property -/

/-- C2 counterexample: on the 3×3 state with the empty cell at (1,1), the
generated right lateral move (1, (2,1), (-1,0)) followed by the move with
the same tile coordinate and negated direction (1, (2,1), (1,0)) does NOT
return a state equal to the original: the second application swaps (2,1)
with (0,1) instead of undoing the first swap of (2,1) with (1,1). -/
theorem c2_inverse_counterexample :
    (((1 : Int), ((2 : Int), (1 : Int)), ((-1 : Int), (0 : Int))) : PuzzleMove) ∈
      get_moves p33_center ∧
    compute_move p33_center p33_center
        ((1 : Int), ((2 : Int), (1 : Int)), ((-1 : Int), (0 : Int))) =
      Except.ok ⟨[[1, 2, 3], [4, 5, 0], [6, 7, 8]], (3, 3), (2, 1)⟩ ∧
    compute_move ⟨[[1, 2, 3], [4, 5, 0], [6, 7, 8]], (3, 3), (2, 1)⟩
        ⟨[[1, 2, 3], [4, 5, 0], [6, 7, 8]], (3, 3), (2, 1)⟩
        ((1 : Int), ((2 : Int), (1 : Int)), ((1 : Int), (0 : Int))) =
      Except.ok ⟨[[1, 2, 3], [0, 5, 4], [6, 7, 8]], (3, 3), (2, 1)⟩ ∧
    Puzzle.eq ⟨[[1, 2, 3], [0, 5, 4], [6, 7, 8]], (3, 3), (2, 1)⟩ p33_center = false :=
  ⟨by decide, rfl, rfl, by decide⟩

/-! ## Claim C6: counterexample to the claimed ordering -/

/-- C6 counterexample: on the 3×3 state with the empty cell at (1,1) the
move list is ordered top, bottom, RIGHT, LEFT — not top, bottom, left,
right as the claim states (the second list below is the claimed order; it
differs from the computed list). -/
theorem c6_order_counterexample :
    get_moves p33_center =
      [((1 : Int), ((1 : Int), (0 : Int)), ((0 : Int), (-1 : Int))),
       (1, (1, 2), (0, 1)), (1, (2, 1), (-1, 0)), (1, (0, 1), (1, 0))] ∧
    ([((1 : Int), ((1 : Int), (0 : Int)), ((0 : Int), (-1 : Int))),
      (1, (1, 2), (0, 1)), (1, (2, 1), (-1, 0)), (1, (0, 1), (1, 0))] :
        List PuzzleMove) ≠
      [(1, (1, 0), (0, -1)), (1, (1, 2), (0, 1)),
       (1, (0, 1), (1, 0)), (1, (2, 1), (-1, 0))] :=
  ⟨by decide, by decide⟩

/-! ## Claim C5 -/

/-- Diagonal entries never pass the vertical-lateral filter. -/
theorem vertical_filter_diag_nil (p : Puzzle) :
    ((diagonal_candidates p).map (fun t => ((3 : Int), t.1, t.2))).filter
      (fun m => m.2.2.1 == 0 && m.2.2.2 != 0) = [] := by
  rw [List.filter_eq_nil_iff]
  intro m hm
  simp only [List.mem_map] at hm
  obtain ⟨a, ha, rfl⟩ := hm
  have hnz := diagonal_candidates_dirs p a ha
  simp [hnz.1]

/-- Diagonal entries never pass the horizontal-lateral filter. -/
theorem horizontal_filter_diag_nil (p : Puzzle) :
    ((diagonal_candidates p).map (fun t => ((3 : Int), t.1, t.2))).filter
      (fun m => m.2.2.1 != 0 && m.2.2.2 == 0) = [] := by
  rw [List.filter_eq_nil_iff]
  intro m hm
  simp only [List.mem_map] at hm
  obtain ⟨a, ha, rfl⟩ := hm
  have hnz := diagonal_candidates_dirs p a ha
  simp [hnz.2]

/-- C5: on a grid of height 2, `get_moves` contains exactly one vertical
lateral entry — the collapsed top/bottom neighbor, labelled with the top
direction (0,-1); on a grid of width 2, exactly one horizontal lateral
entry, labelled with the right direction (-1,0); and on the 2×3 grid with
the empty cell at (0,0) there is exactly one horizontal lateral entry and
two distinct vertical lateral entries. -/
theorem c5_degenerate_axes :
    (∀ (p : Puzzle) (w x y : Int),
      p.dims = (w, 2) → p.tile_pos = (x, y) → 2 ≤ w →
      vertical_entries (get_moves p) =
        [(lateral_cost p (x, (y - 1) % 2), (x, (y - 1) % 2),
          ((0 : Int), (-1 : Int)))]) ∧
    (∀ (p : Puzzle) (h x y : Int),
      p.dims = (2, h) → p.tile_pos = (x, y) → 2 ≤ h →
      horizontal_entries (get_moves p) =
        [(lateral_cost p ((x + 1) % 2, y), ((x + 1) % 2, y),
          ((-1 : Int), (0 : Int)))]) ∧
    vertical_entries (get_moves p23_corner) =
      [((2 : Int), ((0 : Int), (2 : Int)), ((0 : Int), (-1 : Int))),
       ((1 : Int), ((0 : Int), (1 : Int)), ((0 : Int), (1 : Int)))] ∧
    horizontal_entries (get_moves p23_corner) =
      [((1 : Int), ((1 : Int), (0 : Int)), ((-1 : Int), (0 : Int)))] := by
  refine ⟨?_, ?_, by decide, by decide⟩
  · intro p w x y hd hp hw
    unfold vertical_entries get_moves
    rw [lateral_candidates_eq p w 2 x y hd hp hw (by norm_num),
      List.filter_append, vertical_filter_diag_nil, List.append_nil,
      if_pos rfl, List.map_append, List.filter_append]
    split_ifs with hw2 <;> simp [List.filter]
  · intro p h x y hd hp hh
    unfold horizontal_entries get_moves
    rw [lateral_candidates_eq p 2 h x y hd hp (by norm_num) hh,
      List.filter_append, horizontal_filter_diag_nil, List.append_nil,
      List.map_append, List.filter_append]
    rw [if_pos rfl]
    split_ifs with hh2 <;> simp [List.filter]

/-- Witness for C5 on the 2×2 state (height 2): the single vertical entry. -/
theorem c5_degenerate_axes_witness :
    p22_corner.dims = ((2 : Int), (2 : Int)) ∧
    vertical_entries (get_moves p22_corner) =
      [(lateral_cost p22_corner ((0 : Int), ((0 : Int) - 1) % 2),
        ((0 : Int), ((0 : Int) - 1) % 2), ((0 : Int), (-1 : Int)))] :=
  ⟨rfl, c5_degenerate_axes.1 p22_corner 2 0 0 rfl rfl (by decide)⟩

/-! ## Claim C2: the amended inverse property -/

/-- When both the forward and the negated-direction application of
`compute_move` target the original empty cell, the two applications cancel. -/
theorem double_swap_ok (p : Puzzle) (w h c x y : Int) (t d : Int × Int)
    (hd : p.dims = (w, h)) (hw : 2 ≤ w) (hh : 2 ≤ h)
    (hr : Rect p.grid w h)
    (ht : InRange w h t) (hxy : InRange w h (x, y))
    (hne1 : (((t.1 + d.1) % w, (t.2 + d.2) % h) : Int × Int) = (x, y))
    (hne2 : (((t.1 + -d.1) % w, (t.2 + -d.2) % h) : Int × Int) = (x, y)) :
    ∃ p1 p2 : Puzzle,
      compute_move p p (c, t, d) = Except.ok p1 ∧
      compute_move p1 p1 (c, t, (-d.1, -d.2)) = Except.ok p2 ∧
      Puzzle.eq p2 p = true := by
  refine ⟨⟨swapCells p.grid t (x, y), (w, h), t⟩,
    ⟨swapCells (swapCells p.grid t (x, y)) t (x, y), (w, h), t⟩, ?_, ?_, ?_⟩
  · have h1 := compute_move_eq_ok p p (c, t, d) w h hd hw hh hr
    dsimp only at h1
    rwa [hne1] at h1
  · have hr1 : Rect (swapCells p.grid t (x, y)) w h :=
      swapCells_rect _ w h _ _ hr
    have h2 := compute_move_eq_ok
      ⟨swapCells p.grid t (x, y), (w, h), t⟩
      ⟨swapCells p.grid t (x, y), (w, h), t⟩
      (c, t, (-d.1, -d.2)) w h rfl hw hh hr1
    dsimp only at h2
    rwa [hne2] at h2
  · have hgg : swapCells (swapCells p.grid t (x, y)) t (x, y) = p.grid :=
      swapCells_swapCells p.grid w h t (x, y) (by omega) (by omega) hr ht hxy
    simp [Puzzle.eq, hgg]

/-- C2 (amended): applying a lateral move whose motion axis has size 2 —
that is, a horizontal move on a width-2 grid or a vertical move on a
height-2 grid, exactly the collapsed degenerate entries — and then the
move with the same tile coordinate and negated direction returns a state
whose grid contents equal the original's.  (The counterexample above shows
the restriction to size-2 axes is necessary.) -/
theorem c2_inverse_on_size_two_axis :
    ∀ (p : Puzzle) (w h x y c : Int) (t d : Int × Int),
      p.dims = (w, h) → p.tile_pos = (x, y) → 2 ≤ w → 2 ≤ h →
      Rect p.grid w h → InRange w h (x, y) →
      ((c, t, d) : PuzzleMove) ∈ get_moves p →
      (d.1 = 0 ∨ d.2 = 0) →
      (d.1 ≠ 0 → w = 2) → (d.2 ≠ 0 → h = 2) →
      ∃ p1 p2 : Puzzle,
        compute_move p p (c, t, d) = Except.ok p1 ∧
        compute_move p1 p1 (c, t, (-d.1, -d.2)) = Except.ok p2 ∧
        Puzzle.eq p2 p = true := by
  intro p w h x y c t d hd hp hw hh hrect hxy hm hlat hax1 hax2
  obtain ⟨hx0, hxw, hy0, hyh⟩ := hxy
  simp only at hx0 hxw hy0 hyh
  have hxmod : x % w = x := Int.emod_eq_of_lt hx0 hxw
  have hymod : y % h = y := Int.emod_eq_of_lt hy0 hyh
  simp only [get_moves, List.mem_append, List.mem_map] at hm
  rcases hm with ⟨a, ha, heq⟩ | ⟨a, ha, heq⟩
  · obtain ⟨hc, ht', hd'⟩ : lateral_cost p a.1 = c ∧ a.1 = t ∧ a.2 = d := by
      simpa [Prod.ext_iff] using heq
    rw [lateral_candidates_eq p w h x y hd hp hw hh] at ha
    simp only [List.mem_append] at ha
    rcases ha with ha | ha
    · by_cases hh2 : h = 2
      · rw [if_pos hh2] at ha
        simp only [List.mem_cons, List.not_mem_nil, or_false] at ha
        subst ha
        obtain rfl := ht'
        obtain rfl := hd'
        subst hh2
        have hm0 : (0 : Int) ≤ (y - 1) % 2 := by omega
        have hm1 : (y - 1) % 2 < 2 := by omega
        apply double_swap_ok p w 2 c x y _ _ hd hw (by norm_num) hrect
        · exact ⟨hx0, hxw, hm0, hm1⟩
        · exact ⟨hx0, hxw, hy0, hyh⟩
        · refine Prod.ext ?_ ?_ <;> simp only
          · rw [add_zero, hxmod]
          · omega
        · refine Prod.ext ?_ ?_ <;> simp only
          · rw [neg_zero, add_zero, hxmod]
          · omega
      · rw [if_neg hh2] at ha
        simp only [List.mem_cons, List.not_mem_nil, or_false] at ha
        rcases ha with rfl | rfl <;>
          (obtain rfl := hd'
           exact absurd (hax2 (by simp)) hh2)
    · by_cases hw2 : w = 2
      · rw [if_pos hw2] at ha
        simp only [List.mem_cons, List.not_mem_nil, or_false] at ha
        subst ha
        obtain rfl := ht'
        obtain rfl := hd'
        subst hw2
        have hm0 : (0 : Int) ≤ (x + 1) % 2 := by omega
        have hm1 : (x + 1) % 2 < 2 := by omega
        apply double_swap_ok p 2 h c x y _ _ hd (by norm_num) hh hrect
        · exact ⟨hm0, hm1, hy0, hyh⟩
        · exact ⟨hx0, hxw, hy0, hyh⟩
        · refine Prod.ext ?_ ?_ <;> simp only
          · omega
          · rw [add_zero, hymod]
        · refine Prod.ext ?_ ?_ <;> simp only
          · omega
          · rw [neg_zero, add_zero, hymod]
      · rw [if_neg hw2] at ha
        simp only [List.mem_cons, List.not_mem_nil, or_false] at ha
        rcases ha with rfl | rfl <;>
          (obtain rfl := hd'
           exact absurd (hax1 (by simp)) hw2)
  · obtain ⟨hc, ht', hd'⟩ : (3 : Int) = c ∧ a.1 = t ∧ a.2 = d := by
      simpa [Prod.ext_iff] using heq
    have hnz := diagonal_candidates_dirs p a ha
    rw [hd'] at hnz
    tauto

/-- Witness for the amended C2: the collapsed top move on the 2×2 state
and its reversal restore the original grid. -/
theorem c2_inverse_on_size_two_axis_witness :
    (((1 : Int), ((0 : Int), (1 : Int)), ((0 : Int), (-1 : Int))) : PuzzleMove) ∈
      get_moves p22_corner ∧
    ∃ p1 p2 : Puzzle,
      compute_move p22_corner p22_corner
          ((1 : Int), ((0 : Int), (1 : Int)), ((0 : Int), (-1 : Int))) =
        Except.ok p1 ∧
      compute_move p1 p1
          ((1 : Int), ((0 : Int), (1 : Int)), (-(0 : Int), -(-1 : Int))) =
        Except.ok p2 ∧
      Puzzle.eq p2 p22_corner = true :=
  ⟨by decide,
   c2_inverse_on_size_two_axis p22_corner 2 2 0 0 1 (0, 1) (0, -1) rfl rfl
     (by decide) (by decide) (by decide) (by decide) (by decide) (by decide)
     (by decide) (by decide)⟩

/-! ## Claim C6: the amended ordering -/

/-- C6 (amended): for every state with valid dimensions, `get_moves` is
ordered lateral moves first — top, bottom, right, left, subject to the
degeneracy collapsing — followed by the diagonal moves (first diagonal,
second diagonal) when applicable. -/
theorem c6_order_amended :
    ∀ (p : Puzzle) (w h x y : Int),
      p.dims = (w, h) → p.tile_pos = (x, y) → 2 ≤ w → 2 ≤ h →
      get_moves p = claimed_order_moves p := by
  intro p w h x y hd hp hw hh
  unfold get_moves claimed_order_moves
  dsimp only
  rw [lateral_candidates_eq p w h x y hd hp hw hh]
  simp only [hd, hp]

/-- Witness for the amended C6 at the 3×3 center state. -/
theorem c6_order_amended_witness :
    p33_center.dims = ((3 : Int), (3 : Int)) ∧
    get_moves p33_center = claimed_order_moves p33_center :=
  ⟨rfl, c6_order_amended p33_center 3 3 1 1 rfl rfl (by decide) (by decide)⟩

/-! ## Claim C7 -/

/-- The row scan fails exactly when no element of the row matches. -/
theorem locateRow_none_iff (row : List Int) (tile : Int) (s : Int) :
    locateRow row tile s = none ↔ ∀ v ∈ row, v ≠ tile := by
  induction row generalizing s with
  | nil => simp [locateRow]
  | cons t ts ih =>
    simp only [locateRow, List.mem_cons]
    split_ifs with ht
    · constructor
      · intro hcon
        exact absurd hcon (by simp)
      · intro hall
        exact absurd ht (hall t (Or.inl rfl))
    · rw [ih (s + 1)]
      constructor
      · intro hts v hv
        rcases hv with rfl | hv
        · exact ht
        · exact hts v hv
      · intro hall v hv
        exact hall v (Or.inr hv)

/-- The row scan started at counter `s` returns `s` plus the index of the
first matching element. -/
theorem locateRow_some_iff (row : List Int) (tile : Int) (s x : Int) :
    locateRow row tile s = some x ↔
      ∃ i : Nat, x = s + i ∧ i < row.length ∧ row.getD i 0 = tile ∧
        ∀ j : Nat, j < i → row.getD j 0 ≠ tile := by
  induction row generalizing s with
  | nil => simp [locateRow]
  | cons t ts ih =>
    simp only [locateRow]
    split_ifs with ht
    · constructor
      · intro hx
        obtain rfl : s = x := by simpa using hx
        exact ⟨0, by simp, by simp, ht, fun j hj => absurd hj (Nat.not_lt_zero j)⟩
      · rintro ⟨i, hxi, hilen, hget, hprev⟩
        cases i with
        | zero =>
          simp only [Nat.cast_zero, add_zero] at hxi
          rw [hxi]
        | succ n => exact absurd ht (hprev 0 (Nat.succ_pos n))
    · rw [ih (s + 1)]
      constructor
      · rintro ⟨i, hxi, hilen, hget, hprev⟩
        refine ⟨i + 1, by push_cast at hxi ⊢; omega, by simpa using hilen, hget, ?_⟩
        intro j hj
        cases j with
        | zero => exact ht
        | succ k => exact hprev k (by omega)
      · rintro ⟨i, hxi, hilen, hget, hprev⟩
        cases i with
        | zero => exact absurd hget ht
        | succ n =>
          refine ⟨n, by push_cast at hxi ⊢; omega, by simpa using hilen, hget, ?_⟩
          intro j hj
          exact hprev (j + 1) (by omega)

/-- The grid scan fails exactly when no cell of any row matches. -/
theorem locateRows_none_iff (rows : List (List Int)) (tile : Int) (s : Int) :
    locateRows rows tile s = none ↔ ∀ row ∈ rows, ∀ v ∈ row, v ≠ tile := by
  induction rows generalizing s with
  | nil => simp [locateRows]
  | cons r rs ih =>
    simp only [locateRows]
    cases hlr : locateRow r tile 0 with
    | some x0 =>
      constructor
      · intro hcon
        exact absurd hcon (by simp)
      · intro hall
        have hnone : locateRow r tile 0 = none :=
          (locateRow_none_iff r tile 0).mpr (fun v hv => hall r (by simp) v hv)
        rw [hnone] at hlr
        exact absurd hlr (by simp)
    | none =>
      rw [ih (s + 1)]
      constructor
      · intro hrs row hrow v hv
        rw [List.mem_cons] at hrow
        rcases hrow with rfl | hrow
        · exact (locateRow_none_iff row tile 0).mp hlr v hv
        · exact hrs row hrow v hv
      · intro hall row hrow v hv
        exact hall row (List.mem_cons_of_mem r hrow) v hv

/-- The grid scan started at counter `s` returns `s` plus the index of the
first row containing a match, paired with that row's first match. -/
theorem locateRows_some_iff (rows : List (List Int)) (tile : Int) (s x y : Int) :
    locateRows rows tile s = some (x, y) ↔
      ∃ j : Nat, y = s + j ∧ j < rows.length ∧
        locateRow (rows.getD j []) tile 0 = some x ∧
        ∀ k : Nat, k < j → ∀ v ∈ rows.getD k [], v ≠ tile := by
  induction rows generalizing s with
  | nil => simp [locateRows]
  | cons r rs ih =>
    simp only [locateRows]
    cases hlr : locateRow r tile 0 with
    | some x0 =>
      constructor
      · intro hx
        simp only [Option.some.injEq, Prod.mk.injEq] at hx
        obtain ⟨rfl, rfl⟩ := hx
        exact ⟨0, by simp, by simp, hlr, fun k hk => absurd hk (Nat.not_lt_zero k)⟩
      · rintro ⟨j, hyj, hjlen, hget, hprev⟩
        cases j with
        | zero =>
          simp only [List.getD_cons_zero] at hget
          rw [hlr] at hget
          simp only [Option.some.injEq] at hget
          simp only [Nat.cast_zero, add_zero] at hyj
          rw [hget, hyj]
        | succ n =>
          have hnone : locateRow r tile 0 = none :=
            (locateRow_none_iff r tile 0).mpr (hprev 0 (Nat.succ_pos n))
          rw [hnone] at hlr
          exact absurd hlr (by simp)
    | none =>
      rw [ih (s + 1)]
      constructor
      · rintro ⟨j, hyj, hjlen, hget, hprev⟩
        refine ⟨j + 1, by push_cast at hyj ⊢; omega, by simpa using hjlen,
          by simpa only [List.getD_cons_succ] using hget, ?_⟩
        intro k hk
        cases k with
        | zero =>
          simp only [List.getD_cons_zero]
          exact (locateRow_none_iff r tile 0).mp hlr
        | succ m =>
          simp only [List.getD_cons_succ]
          exact hprev m (by omega)
      · rintro ⟨j, hyj, hjlen, hget, hprev⟩
        cases j with
        | zero =>
          simp only [List.getD_cons_zero] at hget
          rw [hlr] at hget
          exact absurd hget (by simp)
        | succ n =>
          refine ⟨n, by push_cast at hyj ⊢; omega, by simpa using hjlen,
            by simpa only [List.getD_cons_succ] using hget, ?_⟩
          intro k hk
          have := hprev (k + 1) (by omega)
          simpa only [List.getD_cons_succ] using this

/-- C7: constructing a state fails with the invalid-configuration error
exactly when width < 2 or height < 2; and locating a tile value fails with
the not-found error exactly when no cell holds the value, otherwise
returning the first matching coordinate in row-major order (y outer loop,
x inner loop). -/
theorem c7_construction_and_locate :
    (∀ (g : List (List Int)) (wd ht : Int) (pos : Int × Int),
      (Puzzle.init g (wd, ht) pos).isOk = false ↔ (wd < 2 ∨ ht < 2)) ∧
    (∀ (g : List (List Int)) (v : Int),
      locate_tile g v = none ↔ ∀ row ∈ g, ∀ t ∈ row, t ≠ v) ∧
    (∀ (g : List (List Int)) (v x y : Int),
      locate_tile g v = some (x, y) ↔
        ∃ yn xn : Nat, y = yn ∧ x = xn ∧ yn < g.length ∧
          xn < (g.getD yn []).length ∧ (g.getD yn []).getD xn 0 = v ∧
          (∀ y' : Nat, y' < yn → ∀ t ∈ g.getD y' [], t ≠ v) ∧
          (∀ x' : Nat, x' < xn → (g.getD yn []).getD x' 0 ≠ v)) := by
  refine ⟨?_, ?_, ?_⟩
  · intro g wd ht pos
    unfold Puzzle.init
    split_ifs with hc
    · simp only [Except.isOk, Except.toBool]
      exact iff_of_true trivial hc
    · simp only [Except.isOk, Except.toBool]
      exact iff_of_false (by simp) hc
  · intro g v
    exact locateRows_none_iff g v 0
  · intro g v x y
    rw [locate_tile, locateRows_some_iff]
    constructor
    · rintro ⟨j, hyj, hjlen, hget, hprev⟩
      rw [locateRow_some_iff] at hget
      obtain ⟨i, hxi, hilen, hival, hiprev⟩ := hget
      exact ⟨j, i, by omega, by omega, hjlen, hilen, hival, hprev, hiprev⟩
    · rintro ⟨yn, xn, hy, hx, hylen, hxlen, hval, hyprev, hxprev⟩
      refine ⟨yn, by omega, hylen, ?_, hyprev⟩
      rw [locateRow_some_iff]
      exact ⟨xn, by omega, hxlen, hval, hxprev⟩

/-- Witness for C7: a 1-wide grid is rejected by the constructor, and a
concrete locate returns the first row-major match. -/
theorem c7_construction_and_locate_witness :
    ((1 : Int) < 2 ∨ (5 : Int) < 2) ∧
    (Puzzle.init [[0], [1]] ((1 : Int), (5 : Int)) (0, 0)).isOk = false ∧
    locate_tile [[3, 7], [7, 7]] 7 = some ((1 : Int), (0 : Int)) :=
  ⟨by decide,
   (c7_construction_and_locate.1 [[0], [1]] 1 5 (0, 0)).mpr (by decide),
   (c7_construction_and_locate.2.2 [[3, 7], [7, 7]] 7 1 0).mpr
     ⟨0, 1, by decide, by decide, by decide, by decide, by decide,
      fun y' hy' => absurd hy' (Nat.not_lt_zero y'),
      by decide⟩⟩

/-! ## Claim C8 -/

/-- C8: two states are equal iff their grid contents are element-wise
equal, regardless of construction path (`from_int_list` versus a reshape
fed to `from_state` produce equal states); equal states have identical
hash keys; and a state differing from another in a single cell compares
unequal. -/
theorem c8_equality_and_hash :
    (∀ a b : Puzzle, Puzzle.eq a b = true ↔ a.grid = b.grid) ∧
    (∀ (l : List Int) (wd ht : Int) (p1 p2 : Puzzle),
      Puzzle.from_int_list l (wd, ht) = Except.ok p1 →
      Puzzle.from_state (reshape l ht.toNat wd.toNat) none = Except.ok p2 →
      Puzzle.eq p1 p2 = true) ∧
    (∀ a b : Puzzle, Puzzle.eq a b = true →
      Puzzle.hash_key a = Puzzle.hash_key b) ∧
    (∀ (a b : Puzzle) (w h : Int) (pos : Int × Int) (v : Int),
      Rect a.grid w h → InRange w h pos →
      b.grid = setCell a.grid pos v → getCell a.grid pos ≠ v →
      Puzzle.eq a b = false) := by
  have heq_iff : ∀ a b : Puzzle, Puzzle.eq a b = true ↔ a.grid = b.grid := by
    intro a b
    unfold Puzzle.eq
    exact decide_eq_true_iff
  refine ⟨heq_iff, ?_, ?_, ?_⟩
  · intro l wd ht p1 p2 h1 h2
    unfold Puzzle.from_int_list at h1
    have h12 : Except.ok (ε := String) p1 = Except.ok p2 := h1.symm.trans h2
    simp only [Except.ok.injEq] at h12
    rw [heq_iff, h12]
  · intro a b hab
    rw [heq_iff] at hab
    unfold Puzzle.hash_key
    rw [hab]
  · intro a b w h pos v hrect hpos hb hne
    unfold Puzzle.eq
    rw [decide_eq_false_iff_not]
    intro hgrids
    apply hne
    rw [hgrids, hb]
    exact getCell_setCell_self a.grid w h pos v hrect hpos

/-- Witness for C8: the 2×2 state and the state with its (0,0) cell
changed compare unequal. -/
theorem c8_equality_and_hash_witness :
    getCell p22_corner.grid (0, 0) ≠ 9 ∧
    Puzzle.eq p22_corner ⟨[[9, 1], [2, 3]], (2, 2), (0, 0)⟩ = false :=
  ⟨by decide,
   c8_equality_and_hash.2.2.2 p22_corner ⟨[[9, 1], [2, 3]], (2, 2), (0, 0)⟩
     2 2 (0, 0) 9 (by decide) (by decide) (by decide) (by decide)⟩

/-! ## Claim C9 -/

/-- `np.append(lin[1:], lin[0])` for `lin = arange (n+1)`: the values
`1, …, n` followed by `0`. -/
theorem rotated_range_eq (n : Nat) :
    ((List.range (n + 1)).map Int.ofNat).drop 1 ++
      ((List.range (n + 1)).map Int.ofNat).take 1 =
      (List.range n).map (fun i => Int.ofNat i + 1) ++ [(0 : Int)] := by
  rw [List.range_succ_eq_map]
  simp only [List.map_cons, List.map_map, List.drop_succ_cons, List.drop_zero,
    List.take_succ_cons, List.take_zero]
  rfl

/-- Entry `k` of the rotated sequence: `k + 1`, except `0` at the last
position. -/
theorem rotated_range_getD (n k : Nat) (hn : 1 ≤ n) (hk : k < n) :
    (((List.range n).map Int.ofNat).drop 1 ++
      ((List.range n).map Int.ofNat).take 1).getD k 0 =
      if k = n - 1 then 0 else Int.ofNat k + 1 := by
  obtain ⟨m, rfl⟩ : ∃ m, n = m + 1 := ⟨n - 1, by omega⟩
  rw [rotated_range_eq]
  simp only [Nat.add_sub_cancel]
  rcases eq_or_lt_of_le (Nat.lt_succ_iff.mp hk) with rfl | hlt
  · rw [if_pos rfl]
    rw [List.getD_eq_getElem _ _ (by simp)]
    rw [List.getElem_append_right (by simp)]
    simp
  · rw [if_neg (by omega)]
    rw [List.getD_append _ _ _ _ (by simp; omega)]
    rw [List.getD_eq_getElem _ _ (by simp; omega), List.getElem_map,
      List.getElem_range]

theorem reshape_length (l : List Int) (r c : Nat) : (reshape l r c).length = r := by
  simp [reshape]

/-- Row `j` of a reshaped list. -/
theorem reshape_row (l : List Int) (r c j : Nat) (hj : j < r) :
    (reshape l r c).getD j [] =
      (List.range c).map (fun i => l.getD (j * c + i) 0) := by
  unfold reshape
  rw [List.getD_eq_getElem _ _ (by simpa using hj), List.getElem_map,
    List.getElem_range]

/-- Entry `(j, i)` of a reshaped list is the flat entry `j * c + i`. -/
theorem reshape_entry (l : List Int) (r c j i : Nat) (hj : j < r) (hi : i < c) :
    ((reshape l r c).getD j []).getD i 0 = l.getD (j * c + i) 0 := by
  rw [reshape_row l r c j hj]
  rw [List.getD_eq_getElem _ _ (by simpa using hi), List.getElem_map,
    List.getElem_range]

theorem reshape_rect (l : List Int) (r c : Nat) :
    Rect (reshape l r c) (c : Int) (r : Int) := by
  refine ⟨by simp [reshape], ?_⟩
  intro row hrow
  unfold reshape at hrow
  simp only [List.mem_map, List.mem_range] at hrow
  obtain ⟨j, _, rfl⟩ := hrow
  simp

theorem getCell_reshape (l : List Int) (r c i j : Nat) (hi : i < c) (hj : j < r) :
    getCell (reshape l r c) ((i : Int), (j : Int)) = l.getD (j * c + i) 0 := by
  unfold getCell
  simp only [Int.toNat_natCast]
  exact reshape_entry l r c j i hj hi

/-- Entry `(j, i)` of a transposed grid is entry `(i, j)` of the grid. -/
theorem getCell_transposeMat (g : List (List Int)) (i j : Nat)
    (hj : j < (g.headD []).length) (hi : i < g.length) :
    getCell (transposeMat g) ((i : Int), (j : Int)) = (g.getD i []).getD j 0 := by
  unfold getCell transposeMat
  simp only [Int.toNat_natCast]
  have houter : ((List.range (g.headD []).length).map
      (fun jj => g.map (fun row => row.getD jj 0))).getD j [] =
      g.map (fun row => row.getD j 0) := by
    rw [List.getD_eq_getElem _ _ (by simpa using hj)]
    rw [List.getElem_map, List.getElem_range]
  rw [houter]
  rw [List.getD_eq_getElem _ _ (by simpa using hi), List.getElem_map]
  rw [List.getD_eq_getElem _ _ hi]

theorem transposeMat_rect (l : List Int) (r c : Nat) (hr : 1 ≤ r) :
    Rect (transposeMat (reshape l r c)) (r : Int) (c : Int) := by
  have hhead : ((reshape l r c).headD []).length = c := by
    have h0 : (reshape l r c).getD 0 [] = (List.range c).map
        (fun i => l.getD (0 * c + i) 0) := reshape_row l r c 0 hr
    cases hg : reshape l r c with
    | nil =>
      exfalso
      have := reshape_length l r c
      rw [hg] at this
      simp at this
      omega
    | cons a rest =>
      rw [hg] at h0
      simp only [List.getD_cons_zero] at h0
      simp [h0]
  constructor
  · unfold transposeMat
    rw [List.length_map, List.length_range, hhead]
    simp
  · intro row hrow
    unfold transposeMat at hrow
    simp only [List.mem_map, List.mem_range] at hrow
    obtain ⟨j, _, rfl⟩ := hrow
    simp [reshape_length]

/-- A rectangular grid's numpy shape is `(h, w)`. -/
theorem shape_of_rect (g : List (List Int)) (w h : Int) (hw : 0 ≤ w)
    (hh : 1 ≤ h) (hr : Rect g w h) :
    shape1 g = w ∧ shape0 g = h := by
  have hlen : g.length = h.toNat := hr.1
  have hne : g ≠ [] := by
    intro hcon
    rw [hcon] at hlen
    simp at hlen
    omega
  have hhead : g.headD [] ∈ g := by
    cases hg : g with
    | nil => exact absurd hg hne
    | cons a rest => simp
  constructor
  · unfold shape1
    rw [hr.2 _ hhead]
    omega
  · unfold shape0
    rw [hlen]
    omega

/-- `Puzzle.from_state` succeeds on a rectangular grid of valid dimensions
containing the empty marker, producing that grid with its located empty
position. -/
theorem from_state_ok (g : List (List Int)) (w h : Int) (hw : 2 ≤ w)
    (hh : 2 ≤ h) (hr : Rect g w h) (hzero : ∃ row ∈ g, (0 : Int) ∈ row) :
    ∃ cpos : Int × Int, locate_tile g 0 = some cpos ∧
      Puzzle.from_state g none = Except.ok ⟨g, (w, h), cpos⟩ := by
  obtain ⟨hs1, hs0⟩ := shape_of_rect g w h (by omega) (by omega) hr
  cases hloc : locate_tile g 0 with
  | none =>
    exfalso
    obtain ⟨row, hrow, hv⟩ := hzero
    exact (locateRows_none_iff g 0 0).mp hloc row hrow 0 hv rfl
  | some cpos =>
    refine ⟨cpos, rfl, ?_⟩
    have hcond : ¬((w, h).1 < 2 ∨ (w, h).2 < 2) := by
      show ¬(w < 2 ∨ h < 2)
      omega
    simp only [Puzzle.from_state, Puzzle.init, hloc, hs1, hs0]
    rw [if_neg hcond]

/-- `getD` at an in-bounds index is a member. -/
theorem getD_mem {α : Type} (l : List α) (i : Nat) (d : α) (h : i < l.length) :
    l.getD i d ∈ l := by
  rw [List.getD_eq_getElem _ _ h]
  exact List.getElem_mem h

/-- C9: for every state of dimensions (w, h), `find_goals` returns exactly
two states; the first holds 1, 2, …, w·h−1 in row-major order with the
empty marker 0 in the last cell (cell (i, j) holds j·w+i+1, except 0 at
the last linear index), and the second holds the same linear sequence laid
out column-major (cell (i, j) holds i·h+j+1, except 0 at the last linear
index). -/
theorem c9_find_goals :
    ∀ (p : Puzzle) (w h : Int),
      p.dims = (w, h) → 2 ≤ w → 2 ≤ h →
      ∃ q1 q2 : Puzzle,
        find_goals p = Except.ok (q1, q2) ∧
        (∀ i j : Nat, i < w.toNat → j < h.toNat →
          getCell q1.grid ((i : Int), (j : Int)) =
            if j * w.toNat + i = w.toNat * h.toNat - 1 then 0
            else Int.ofNat (j * w.toNat + i) + 1) ∧
        (∀ i j : Nat, i < w.toNat → j < h.toNat →
          getCell q2.grid ((i : Int), (j : Int)) =
            if i * h.toNat + j = w.toNat * h.toNat - 1 then 0
            else Int.ofNat (i * h.toNat + j) + 1) := by
  intro p w h hd hw hh
  obtain ⟨wn, rfl⟩ : ∃ wn : Nat, w = (wn : Int) := ⟨w.toNat, by omega⟩
  obtain ⟨hn, rfl⟩ : ∃ hn : Nat, h = (hn : Int) := ⟨h.toNat, by omega⟩
  have hwn : 2 ≤ wn := by exact_mod_cast hw
  have hhn : 2 ≤ hn := by exact_mod_cast hh
  have h4 : 4 ≤ wn * hn := by
    calc 4 = 2 * 2 := rfl
    _ ≤ wn * hn := Nat.mul_le_mul hwn hhn
  have hcount : ((wn : Int) * (hn : Int)).toNat = wn * hn := by
    have hmul : ((wn : Int) * (hn : Int)) = ((wn * hn : Nat) : Int) := by
      push_cast
      ring
    rw [hmul, Int.toNat_natCast]
  have hlast : ∀ k, k < wn * hn →
      (((List.range (wn * hn)).map Int.ofNat).drop 1 ++
        ((List.range (wn * hn)).map Int.ofNat).take 1).getD k 0 =
        if k = wn * hn - 1 then 0 else Int.ofNat k + 1 :=
    fun k hk => rotated_range_getD (wn * hn) k (by omega) hk
  have hidx1 : ∀ i j : Nat, i < wn → j < hn → j * wn + i < wn * hn := by
    intro i j hi hj
    calc j * wn + i < (j + 1) * wn := by rw [Nat.succ_mul]; omega
    _ ≤ hn * wn := Nat.mul_le_mul_right _ (by omega)
    _ = wn * hn := Nat.mul_comm hn wn
  have hidx2 : ∀ i j : Nat, i < wn → j < hn → i * hn + j < wn * hn := by
    intro i j hi hj
    calc i * hn + j < (i + 1) * hn := by rw [Nat.succ_mul]; omega
    _ ≤ wn * hn := Nat.mul_le_mul_right _ (by omega)
  have hg1rect : Rect (reshape (((List.range (wn * hn)).map Int.ofNat).drop 1 ++
      ((List.range (wn * hn)).map Int.ofNat).take 1) hn wn) (wn : Int) (hn : Int) :=
    reshape_rect _ hn wn
  have hg2rect : Rect (transposeMat (reshape
      (((List.range (wn * hn)).map Int.ofNat).drop 1 ++
        ((List.range (wn * hn)).map Int.ofNat).take 1) wn hn)) (wn : Int) (hn : Int) :=
    transposeMat_rect _ wn hn (by omega)
  have hlastidx1 : (hn - 1) * wn + (wn - 1) = wn * hn - 1 := by
    have e1 : (hn - 1) * wn = hn * wn - wn := by rw [Nat.sub_mul, one_mul]
    have e2 : hn * wn = wn * hn := Nat.mul_comm hn wn
    have e3 : wn ≤ wn * hn := Nat.le_mul_of_pos_right wn (by omega)
    omega
  have hlastidx2 : (wn - 1) * hn + (hn - 1) = wn * hn - 1 := by
    have e1 : (wn - 1) * hn = wn * hn - hn := by rw [Nat.sub_mul, one_mul]
    have e3 : hn ≤ wn * hn := Nat.le_mul_of_pos_left hn (by omega)
    omega
  have hzero1 : ∃ row ∈ reshape (((List.range (wn * hn)).map Int.ofNat).drop 1 ++
      ((List.range (wn * hn)).map Int.ofNat).take 1) hn wn, (0 : Int) ∈ row := by
    refine ⟨_, getD_mem _ (hn - 1) [] (by rw [reshape_length]; omega), ?_⟩
    have hval : ((reshape (((List.range (wn * hn)).map Int.ofNat).drop 1 ++
        ((List.range (wn * hn)).map Int.ofNat).take 1) hn wn).getD
        (hn - 1) []).getD (wn - 1) 0 = 0 := by
      rw [reshape_entry _ hn wn (hn - 1) (wn - 1) (by omega) (by omega),
        hlastidx1, hlast _ (by omega), if_pos rfl]
    have hlenrow : ((reshape (((List.range (wn * hn)).map Int.ofNat).drop 1 ++
        ((List.range (wn * hn)).map Int.ofNat).take 1) hn wn).getD
        (hn - 1) []).length = wn := by
      rw [reshape_row _ hn wn (hn - 1) (by omega)]
      simp
    rw [← hval]
    exact getD_mem _ (wn - 1) 0 (by rw [hlenrow]; omega)
  have hzero2 : ∃ row ∈ transposeMat (reshape
      (((List.range (wn * hn)).map Int.ofNat).drop 1 ++
        ((List.range (wn * hn)).map Int.ofNat).take 1) wn hn), (0 : Int) ∈ row := by
    have hlen2 : (transposeMat (reshape
        (((List.range (wn * hn)).map Int.ofNat).drop 1 ++
          ((List.range (wn * hn)).map Int.ofNat).take 1) wn hn)).length = hn := by
      have := hg2rect.1
      simpa using this
    refine ⟨_, getD_mem _ (hn - 1) [] (by rw [hlen2]; omega), ?_⟩
    have hheadlen : ((reshape (((List.range (wn * hn)).map Int.ofNat).drop 1 ++
        ((List.range (wn * hn)).map Int.ofNat).take 1) wn hn).headD []).length = hn := by
      have h0 := reshape_row (((List.range (wn * hn)).map Int.ofNat).drop 1 ++
        ((List.range (wn * hn)).map Int.ofNat).take 1) wn hn 0 (by omega)
      cases hg : reshape (((List.range (wn * hn)).map Int.ofNat).drop 1 ++
          ((List.range (wn * hn)).map Int.ofNat).take 1) wn hn with
      | nil =>
        exfalso
        have hlr := reshape_length (((List.range (wn * hn)).map Int.ofNat).drop 1 ++
          ((List.range (wn * hn)).map Int.ofNat).take 1) wn hn
        rw [hg] at hlr
        simp at hlr
        omega
      | cons a rest =>
        rw [hg] at h0
        simp only [List.getD_cons_zero] at h0
        simp [h0]
    have hcell := getCell_transposeMat (reshape
        (((List.range (wn * hn)).map Int.ofNat).drop 1 ++
          ((List.range (wn * hn)).map Int.ofNat).take 1) wn hn)
      (wn - 1) (hn - 1) (by rw [hheadlen]; omega) (by rw [reshape_length]; omega)
    unfold getCell at hcell
    simp only [Int.toNat_natCast] at hcell
    have hval : ((transposeMat (reshape
        (((List.range (wn * hn)).map Int.ofNat).drop 1 ++
          ((List.range (wn * hn)).map Int.ofNat).take 1) wn hn)).getD
        (hn - 1) []).getD (wn - 1) 0 = 0 := by
      rw [hcell, reshape_entry _ wn hn (wn - 1) (hn - 1) (by omega) (by omega),
        hlastidx2, hlast _ (by omega), if_pos rfl]
    have hlenrow : ((transposeMat (reshape
        (((List.range (wn * hn)).map Int.ofNat).drop 1 ++
          ((List.range (wn * hn)).map Int.ofNat).take 1) wn hn)).getD
        (hn - 1) []).length = wn := by
      have := hg2rect.2 _ (getD_mem _ (hn - 1) [] (by rw [hlen2]; omega))
      simpa using this
    rw [← hval]
    exact getD_mem _ (wn - 1) 0 (by rw [hlenrow]; omega)
  obtain ⟨c1, hloc1, hfs1⟩ := from_state_ok _ (wn : Int) (hn : Int) hw hh hg1rect hzero1
  obtain ⟨c2, hloc2, hfs2⟩ := from_state_ok _ (wn : Int) (hn : Int) hw hh hg2rect hzero2
  refine ⟨⟨reshape (((List.range (wn * hn)).map Int.ofNat).drop 1 ++
      ((List.range (wn * hn)).map Int.ofNat).take 1) hn wn, ((wn : Int), (hn : Int)), c1⟩,
    ⟨transposeMat (reshape (((List.range (wn * hn)).map Int.ofNat).drop 1 ++
      ((List.range (wn * hn)).map Int.ofNat).take 1) wn hn), ((wn : Int), (hn : Int)), c2⟩,
    ?_, ?_, ?_⟩
  · unfold find_goals
    rw [hd]
    dsimp only
    simp only [hcount, Int.toNat_natCast]
    rw [hfs1, hfs2]
  · intro i j hi hj
    simp only [Int.toNat_natCast] at hi hj ⊢
    rw [getCell_reshape _ hn wn i j hi hj, hlast _ (hidx1 i j hi hj)]
  · intro i j hi hj
    simp only [Int.toNat_natCast] at hi hj ⊢
    have hheadlen : ((reshape (((List.range (wn * hn)).map Int.ofNat).drop 1 ++
        ((List.range (wn * hn)).map Int.ofNat).take 1) wn hn).headD []).length = hn := by
      have h0 := reshape_row (((List.range (wn * hn)).map Int.ofNat).drop 1 ++
        ((List.range (wn * hn)).map Int.ofNat).take 1) wn hn 0 (by omega)
      cases hg : reshape (((List.range (wn * hn)).map Int.ofNat).drop 1 ++
          ((List.range (wn * hn)).map Int.ofNat).take 1) wn hn with
      | nil =>
        exfalso
        have hlr := reshape_length (((List.range (wn * hn)).map Int.ofNat).drop 1 ++
          ((List.range (wn * hn)).map Int.ofNat).take 1) wn hn
        rw [hg] at hlr
        simp at hlr
        omega
      | cons a rest =>
        rw [hg] at h0
        simp only [List.getD_cons_zero] at h0
        simp [h0]
    rw [getCell_transposeMat _ i j (by rw [hheadlen]; exact hj)
        (by rw [reshape_length]; exact hi),
      reshape_entry _ wn hn i j hi hj, hlast _ (hidx2 i j hi hj)]

/-- Witness for C9 at the 3×3 corner state: the row-major goal reads
[1,2,3,4,5,6,7,8,0] row by row and the transposed goal column by column. -/
theorem c9_find_goals_witness :
    (∃ q1 q2 : Puzzle,
      find_goals p33_corner = Except.ok (q1, q2) ∧
      (∀ i j : Nat, i < (3 : Int).toNat → j < (3 : Int).toNat →
        getCell q1.grid ((i : Int), (j : Int)) =
          if j * (3 : Int).toNat + i = (3 : Int).toNat * (3 : Int).toNat - 1 then 0
          else Int.ofNat (j * (3 : Int).toNat + i) + 1) ∧
      (∀ i j : Nat, i < (3 : Int).toNat → j < (3 : Int).toNat →
        getCell q2.grid ((i : Int), (j : Int)) =
          if i * (3 : Int).toNat + j = (3 : Int).toNat * (3 : Int).toNat - 1 then 0
          else Int.ofNat (i * (3 : Int).toNat + j) + 1)) ∧
    (find_goals p33_corner).map (fun pr => (pr.1.grid, pr.2.grid)) =
      Except.ok ([[1, 2, 3], [4, 5, 6], [7, 8, 0]],
        [[1, 4, 7], [2, 5, 8], [3, 6, 0]]) :=
  ⟨c9_find_goals p33_corner 3 3 rfl (by decide) (by decide),
   rfl⟩

/-! ## Claim C10 -/

/-- C10: for every pair of states, evaluating `p != q` raises the
unbound-name error (`__eq__` is a free, undefined name in `__ne__`'s body)
and never returns a boolean, in particular never the negation of `p == q`. -/
theorem c10_ne_raises_name_error :
    ∀ p q : Puzzle,
      Puzzle.ne p q = Except.error "NameError: name __eq__ is not defined" ∧
      (Puzzle.ne p q).isOk = false :=
  fun _ _ => ⟨rfl, rfl⟩

end TilesPuzzle
